import Mathlib

/-!
Shallow embedding of the chunked-upload orchestrator of
`apps/api/app/services/upload_service.py` together with the persistence
behaviour of `apps/api/app/adapters/dynamodb_adapter.py` and the data model of
`apps/api/app/models/upload.py`.

Embedding conventions:
* Python ints become `Nat`/`Int` (no overflow in CPython).
* Python floats / `Decimal` progress values become exact rationals `ℚ`;
  `round(x, 2)` is embedded as round-half-to-even on rationals
  (CPython's rounding mode).  None of the verified statements depends on a
  float value that is not exactly representable.
* The DynamoDB table becomes an association list `Store`; `put_item`
  prepends (newest entry wins on lookup, i.e. overwrite).
* The S3 client is an external collaborator: its outcomes enter the model as
  parameters (`sid` for `initiate`, `url` for `presign`, `finOk` for
  `complete`).  The `parts` payload built on lines 118-122 of
  `upload_service.py` is only passed to that external call and is absorbed by
  the `finOk` outcome parameter.
* `datetime` fields (`created_at`, `updated_at`, `completed_at`) are real-time
  values; they are elided because no verified claim mentions them.
* Python code that raises an unhandled exception (the `IndexError` of
  `upload.chunks[chunk_number - 1]`) is embedded as `none` of an `Option`
  result: the operation aborts before any store write.
-/

/-- Upload status enum, from `UploadStatus` in `models/upload.py`. -/
inductive UploadStatus where
  | pending
  | uploading
  | completed
  | failed
deriving DecidableEq, Repr

/-- One chunk record, from `UploadChunk` in `models/upload.py`.
`etag` is the "part tag" of the spec. -/
structure UploadChunk where
  chunk_number : Nat
  start_byte : Nat
  end_byte : Nat
  is_uploaded : Bool := false
  etag : Option String := none
deriving DecidableEq, Repr

/-- The Upload aggregate, from `Upload` in `models/upload.py`.
`upload_id` is the S3 multipart-session id; `user_id` is the spec's
`owner_id`.  The three `datetime` fields are elided (see module comment). -/
structure Upload where
  id : Option String := none
  user_id : String
  filename : String
  file_size : Nat
  content_type : String
  upload_id : Option String := none
  s3_key : Option String := none
  s3_bucket : Option String := none
  status : UploadStatus := UploadStatus.pending
  chunks : List UploadChunk := []
  upload_progress : ℚ := 0
deriving DecidableEq, Repr

/-- The `UploadInitiate` request DTO of `models/upload.py` (its pydantic field
bounds appear as hypotheses of the reachability relation below). -/
structure UploadInitiate where
  filename : String
  file_size : Nat
  content_type : String
  chunk_size : Nat
deriving DecidableEq, Repr

/-- The `UploadResponse` DTO of `models/upload.py`. -/
structure UploadResponse where
  upload_id : String
  status : UploadStatus
  progress : ℚ
  message : String
  upload_url : Option String := none
  next_chunk : Option Int := none
deriving DecidableEq, Repr

/-- The DynamoDB uploads table, keyed by `Upload.id`. -/
abbrev Store : Type := List (String × Upload)

/-- Table lookup (`DynamoDBAdapter.get_upload`): first entry with the key. -/
def dbGet : Store → String → Option Upload
  | [], _ => none
  | (k, u) :: rest, i => if k = i then some u else dbGet rest i

/-- Table write (`DynamoDBAdapter.put_upload` / `put_item`): overwrite by
prepending; `dbGet` sees the newest entry. -/
def dbPut (db : Store) (i : String) (u : Upload) : Store :=
  (i, u) :: db

/-- `DynamoDBAdapter.update_upload`: re-reads the record, and only writes when
it exists (the service passes the full field dict, so the write is a full
overwrite of the record). -/
def update_upload (db : Store) (i : String) (u : Upload) : Store :=
  match dbGet db i with
  | none => db
  | some _ => dbPut db i u

/-- CPython's `round` to an integer: round half to even. -/
def pyRoundHalfEven (q : ℚ) : ℤ :=
  let f := Rat.floor q
  let r := q - (f : ℚ)
  if r < 1 / 2 then f
  else if 1 / 2 < r then f + 1
  else if f % 2 = 0 then f else f + 1

/-- `round(x, 2)` on an exact value. -/
def round2 (q : ℚ) : ℚ :=
  (pyRoundHalfEven (q * 100) : ℚ) / 100

/-- CPython list indexing: `lst[i]` resolves a possibly negative index, or
raises `IndexError` (`none`). -/
def pyIndex (len : Nat) (i : Int) : Option Nat :=
  let j := if i < 0 then i + (len : Int) else i
  if 0 ≤ j ∧ j < (len : Int) then some j.toNat else none

/-- Lines 110-111 of `upload_service.py`: in-place
`chunks[idx].is_uploaded = True; chunks[idx].etag = etag` at a resolved
(nonnegative, in-range) index. -/
def markChunk : List UploadChunk → Nat → String → List UploadChunk
  | [], _, _ => []
  | c :: cs, 0, tag => { c with is_uploaded := true, etag := some tag } :: cs
  | c :: cs, n + 1, tag => c :: markChunk cs n tag

/-- Lines 112-113 of `upload_service.py`:
`uploaded = sum(1 for c in chunks if c.is_uploaded)` and
`round(uploaded / len(chunks) * 100, 2)`. -/
def progressOf (chunks : List UploadChunk) : ℚ :=
  round2 ((chunks.countP (fun c => c.is_uploaded) : ℚ) / (chunks.length : ℚ) * 100)

/-- The in-memory mutation of lines 110-113 of `mark_complete` on the fetched
record: mark the chunk, then recompute `upload_progress`. -/
def mcLocal (u : Upload) (idx : Nat) (tag : String) : Upload :=
  let chunks1 := markChunk u.chunks idx tag
  { u with chunks := chunks1, upload_progress := progressOf chunks1 }

/-- `UploadService._make_chunks` with `math.ceil(size / chunk)` as the exact
ceiling division `(size + chunk - 1) / chunk`.  CPython computes that ceiling
through float division; the unrestricted float-faithful embedding is
`make_chunks_py` below, and `make_chunks_py_eq` proves the two plans coincide
on every input the request DTO admits (`file_size ≤ 5·2^30 < 2^53`,
`2^20 ≤ chunk_size ≤ 100·2^20`) — the only inputs the service can pass.
Outside that domain they differ (see `C4_counterexample`). -/
def make_chunks (size : Nat) (chunk : Nat) : List UploadChunk :=
  let total := (size + chunk - 1) / chunk
  (List.range total).map fun i =>
    { chunk_number := i + 1
      start_byte := i * chunk
      end_byte := min (size - 1) ((i + 1) * chunk - 1) }

/-- Floor of the base-2 logarithm, by structural recursion on a fuel bound
(`natLog2 n` is `⌊log2 n⌋` for `n ≥ 1`). -/
def log2Aux : Nat → Nat → Nat
  | 0, _ => 0
  | fuel + 1, n => if n ≤ 1 then 0 else log2Aux fuel (n / 2) + 1

def natLog2 (n : Nat) : Nat := log2Aux n n

/-- Exact scaling `q * 2 ^ e` with an integer exponent, kept computable. -/
def mulPow2 (q : ℚ) (e : Int) : ℚ :=
  if 0 ≤ e then q * ((2 ^ e.toNat : Nat) : ℚ) else q / ((2 ^ (-e).toNat : Nat) : ℚ)

/-- Floor of the base-2 logarithm of `a / b` for positive `a`, `b`: the unique
`e` with `2^e ≤ a/b < 2^(e+1)`. -/
def ratLog2Floor (a b : Nat) : Int :=
  let d : Int := (natLog2 a : Int) - (natLog2 b : Int)
  if mulPow2 (b : ℚ) d ≤ (a : ℚ) then d else d - 1

/-- Round `q` to the grid of spacing `2 ^ e`, ties to even (the IEEE-754
round-to-nearest of a value whose binade has unit-in-the-last-place `2^e`). -/
def roundToBinade (q : ℚ) (e : Int) : ℚ :=
  mulPow2 ((pyRoundHalfEven (mulPow2 q (-e)) : ℤ) : ℚ) e

/-- CPython `a / b` on two nonnegative machine integers (`long_true_divide`):
the correctly rounded IEEE-754 double of the exact quotient, as an exact
rational — the grid spacing is `2^(L-52)` for quotients in the binade
`[2^L, 2^(L+1))`, clamped at the subnormal spacing `2^-1074`; `none` models
the `OverflowError` raised when the rounded quotient reaches `2^1024`. -/
def pyFloatDiv (a b : Nat) : Option ℚ :=
  let e : Int := max (-1074) (ratLog2Floor a b - 52)
  let r := roundToBinade ((a : ℚ) / (b : ℚ)) e
  if r < mulPow2 1 1024 then some r else none

/-- `math.ceil(a / b)` as CPython computes it for positive ints: the ceiling
of the correctly rounded double quotient; `none` is the propagating
`OverflowError`. -/
def pyCeilDiv (a b : Nat) : Option Nat :=
  (pyFloatDiv a b).map (fun q => (Rat.ceil q).toNat)

/-- `UploadService._make_chunks` embedded over the full positive domain,
with `math.ceil(size / chunk)` going through CPython float division
(`pyCeilDiv`); `none` models the propagating `OverflowError`.  On every input
the service can pass (the request DTO bounds), this coincides with the
exact-ceiling plan `make_chunks` — see `make_chunks_py_eq`. -/
def make_chunks_py (size chunk : Nat) : Option (List UploadChunk) :=
  (pyCeilDiv size chunk).map (fun total =>
    (List.range total).map fun i =>
      { chunk_number := i + 1
        start_byte := i * chunk
        end_byte := min (size - 1) ((i + 1) * chunk - 1) })

/-- `UploadService._next_chunk`: first chunk not yet uploaded, in order. -/
def next_chunk : List UploadChunk → Option Int
  | [] => none
  | c :: cs => if c.is_uploaded then next_chunk cs else some (c.chunk_number : Int)

/-- The "Upload not found" failure response shared by `presign` and
`mark_complete` (returned both when the record is absent and when the owner
does not match). -/
def notFoundResp (upload_id : String) : UploadResponse :=
  { upload_id := upload_id, status := UploadStatus.failed, progress := 0
    message := "Upload not found" }

/-- The service-level cap of `UploadService.__init__` (5 GB). -/
def max_file_size : Nat := 5 * 1024 * 1024 * 1024

/-- `UploadService.initiate`.  `newId` stands for the generated `uuid4`,
`sid` for the outcome of `S3Adapter.initiate`, `bucket` for the configured
bucket.  Returns the new store and the response. -/
def initiate (db : Store) (req : UploadInitiate) (user_id : String)
    (newId : String) (sid : Option String) (bucket : String) :
    Store × UploadResponse :=
  if max_file_size < req.file_size then
    (db, { upload_id := "", status := UploadStatus.failed, progress := 0
           message := "File too large" })
  else
    match sid with
    | none =>
        (db, { upload_id := "", status := UploadStatus.failed, progress := 0
               message := "S3 error" })
    | some s =>
        let key := "uploads/" ++ user_id ++ "/" ++ newId ++ "/" ++ req.filename
        let upload : Upload :=
          { id := some newId, user_id := user_id, filename := req.filename
            file_size := req.file_size, content_type := req.content_type
            upload_id := some s, status := UploadStatus.uploading
            chunks := make_chunks req.file_size req.chunk_size
            s3_key := some key, s3_bucket := some bucket }
        (dbPut db newId upload,
         { upload_id := newId, status := UploadStatus.uploading, progress := 0
           message := "Upload initiated", next_chunk := some 1 })

/-- `UploadService.presign` (the spec's AuthorizeChunk).  `url` is the outcome
of `S3Adapter.presign`.  `none` is the unhandled `IndexError` of line 78. -/
def presign (db : Store) (upload_id : String) (chunk_number : Int)
    (user_id : String) (url : Option String) : Option UploadResponse :=
  match dbGet db upload_id with
  | none => some (notFoundResp upload_id)
  | some upload =>
      if upload.user_id = user_id then
        match pyIndex upload.chunks.length (chunk_number - 1) with
        | none => none
        | some idx =>
            match upload.chunks[idx]? with
            | none => none
            | some chunk =>
                if chunk.is_uploaded then
                  some { upload_id := upload_id, status := upload.status
                         progress := upload.upload_progress
                         message := "Chunk already uploaded"
                         next_chunk := next_chunk upload.chunks }
                else
                  some { upload_id := upload_id, status := upload.status
                         progress := upload.upload_progress
                         message := "URL generated", upload_url := url
                         next_chunk := some chunk_number }
      else some (notFoundResp upload_id)

/-- `UploadService.mark_complete` (the spec's CompleteChunk).  `finOk` is the
outcome of the external `S3Adapter.complete` finalize call; `none` is the
unhandled `IndexError` of line 110 (raised before any store write). -/
def mark_complete (db : Store) (upload_id : String) (chunk_number : Int)
    (etag : String) (user_id : String) (finOk : Bool) :
    Option (Store × UploadResponse) :=
  match dbGet db upload_id with
  | none => some (db, notFoundResp upload_id)
  | some upload =>
      if upload.user_id = user_id then
        match pyIndex upload.chunks.length (chunk_number - 1) with
        | none => none
        | some idx =>
            let u1 := mcLocal upload idx etag
            let db1 := update_upload db upload_id u1
            if u1.chunks.countP (fun c => c.is_uploaded) = u1.chunks.length then
              if finOk then
                let u2 := { u1 with status := UploadStatus.completed }
                some (update_upload db1 upload_id u2,
                  { upload_id := upload_id, status := UploadStatus.completed
                    progress := 100, message := "Upload completed" })
              else
                let u2 := { u1 with status := UploadStatus.failed }
                some (update_upload db1 upload_id u2,
                  { upload_id := upload_id, status := UploadStatus.failed
                    progress := u1.upload_progress
                    message := "S3 finalize failed" })
            else
              some (db1,
                { upload_id := upload_id, status := upload.status
                  progress := u1.upload_progress
                  message := "Chunk " ++ toString chunk_number ++ " saved"
                  next_chunk := next_chunk u1.chunks })
      else some (db, notFoundResp upload_id)

/-- Store after a `mark_complete` call (a crash — unhandled `IndexError` —
happens before any store write, so it leaves the store unchanged). -/
def mcStore (db : Store) (upload_id : String) (chunk_number : Int)
    (etag : String) (user_id : String) (finOk : Bool) : Store :=
  match mark_complete db upload_id chunk_number etag user_id finOk with
  | some p => p.1
  | none => db

/-- Response of a `mark_complete` call, when it does not crash. -/
def mcResp (db : Store) (upload_id : String) (chunk_number : Int)
    (etag : String) (user_id : String) (finOk : Bool) : Option UploadResponse :=
  (mark_complete db upload_id chunk_number etag user_id finOk).map Prod.snd

/-- The record that a non-crashing, owner-matching `mark_complete` leaves in
the store for its upload id (all branches persist `mcLocal`'s chunks and
progress; only the status differs by branch). -/
def finalRecord (u : Upload) (idx : Nat) (tag : String) (finOk : Bool) : Upload :=
  let u1 := mcLocal u idx tag
  if u1.chunks.countP (fun c => c.is_uploaded) = u1.chunks.length then
    { u1 with status := if finOk then UploadStatus.completed else UploadStatus.failed }
  else u1

/-- Stores reachable through the orchestrator's operations.  `presign` never
writes, so it contributes no step.  The `initiate` step carries the pydantic
bounds of the `UploadInitiate` DTO (`file_size` gt 0 le 5 GiB, `chunk_size`
ge 1 MiB le 100 MiB), which FastAPI enforces before the service runs. -/
inductive Reach : Store → Prop where
  | empty : Reach []
  | step_initiate (db : Store) (req : UploadInitiate) (uid newId bucket : String)
      (sid : Option String) :
      Reach db →
      0 < req.file_size → req.file_size ≤ 5 * 1024 * 1024 * 1024 →
      1024 * 1024 ≤ req.chunk_size → req.chunk_size ≤ 100 * 1024 * 1024 →
      Reach (initiate db req uid newId sid bucket).1
  | step_complete (db : Store) (upload_id : String) (chunk_number : Int)
      (etag uid : String) (finOk : Bool) :
      Reach db →
      Reach (mcStore db upload_id chunk_number etag uid finOk)

/-! ### Store lemmas -/

theorem dbGet_dbPut_self (db : Store) (i : String) (u : Upload) :
    dbGet (dbPut db i u) i = some u := by
  simp [dbGet, dbPut]

theorem dbGet_dbPut_ne (db : Store) (i j : String) (u : Upload) (h : i ≠ j) :
    dbGet (dbPut db i u) j = dbGet db j := by
  simp [dbGet, dbPut, h]

theorem update_upload_of_get (db : Store) (i : String) (u0 u : Upload)
    (h : dbGet db i = some u0) :
    update_upload db i u = dbPut db i u := by
  simp [update_upload, h]

/-! ### markChunk lemmas -/

theorem markChunk_length (l : List UploadChunk) (n : Nat) (t : String) :
    (markChunk l n t).length = l.length := by
  induction l generalizing n with
  | nil => rfl
  | cons c cs ih =>
      cases n with
      | zero => rfl
      | succ m => simp [markChunk, ih]

theorem markChunk_getElem_self (l : List UploadChunk) (n : Nat) (t : String) :
    (markChunk l n t)[n]? =
      (l[n]?).map (fun c => { c with is_uploaded := true, etag := some t }) := by
  induction l generalizing n with
  | nil => simp [markChunk]
  | cons c cs ih =>
      cases n with
      | zero => simp [markChunk]
      | succ m => simpa [markChunk] using ih m

theorem markChunk_getElem_ne (l : List UploadChunk) (n m : Nat) (t : String)
    (h : m ≠ n) :
    (markChunk l n t)[m]? = l[m]? := by
  induction l generalizing n m with
  | nil => simp [markChunk]
  | cons c cs ih =>
      cases n with
      | zero =>
          cases m with
          | zero => exact absurd rfl h
          | succ k => simp [markChunk]
      | succ j =>
          cases m with
          | zero => simp [markChunk]
          | succ k =>
              have : k ≠ j := fun hk => h (by simp [hk])
              simpa [markChunk] using ih j k this

theorem markChunk_idem (l : List UploadChunk) (n : Nat) (t : String) :
    markChunk (markChunk l n t) n t = markChunk l n t := by
  induction l generalizing n with
  | nil => rfl
  | cons c cs ih =>
      cases n with
      | zero => rfl
      | succ m => simp [markChunk, ih]

theorem markChunk_countP_of_uploaded (l : List UploadChunk) (n : Nat) (t : String)
    (c : UploadChunk) (h : l[n]? = some c) (hc : c.is_uploaded = true) :
    (markChunk l n t).countP (fun d => d.is_uploaded) =
      l.countP (fun d => d.is_uploaded) := by
  induction l generalizing n with
  | nil => simp at h
  | cons a as ih =>
      cases n with
      | zero =>
          simp only [List.getElem?_cons_zero, Option.some.injEq] at h
          subst h
          simp [markChunk, List.countP_cons, hc]
      | succ m =>
          simp only [List.getElem?_cons_succ] at h
          simp [markChunk, List.countP_cons, ih m h]

theorem markChunk_all (l : List UploadChunk) (n : Nat) (t : String)
    (h : ∀ c ∈ l, c.is_uploaded = true) :
    ∀ c ∈ markChunk l n t, c.is_uploaded = true := by
  induction l generalizing n with
  | nil => simp [markChunk]
  | cons a as ih =>
      cases n with
      | zero =>
          intro c hcmem
          simp only [markChunk] at hcmem
          rcases List.mem_cons.mp hcmem with hc | hc
          · subst hc; rfl
          · exact h c (List.mem_cons_of_mem a hc)
      | succ m =>
          intro c hcmem
          simp only [markChunk] at hcmem
          rcases List.mem_cons.mp hcmem with hc | hc
          · rw [hc]; exact h a (List.mem_cons_self a as)
          · exact ih m (fun d hd => h d (List.mem_cons_of_mem a hd)) c hc

theorem pyIndex_lt (len : Nat) (i : Int) (idx : Nat)
    (h : pyIndex len i = some idx) : idx < len := by
  simp only [pyIndex] at h
  split at h
  · split at h
    · injection h with h2; omega
    · cases h
  · split at h
    · injection h with h2; omega
    · cases h

theorem pyIndex_of_nonneg (len : Nat) (i : Int) (h0 : 0 ≤ i) (h1 : i < (len : Int)) :
    pyIndex len i = some i.toNat := by
  simp only [pyIndex]
  rw [if_neg (by omega : ¬ i < 0), if_pos ⟨h0, h1⟩]

theorem pyIndex_zero_sub_one (len : Nat) (h : 0 < len) :
    pyIndex len ((0 : Int) - 1) = some (len - 1) := by
  simp only [pyIndex]
  rw [if_pos (by omega : (0 : Int) - 1 < 0),
    if_pos (by omega : (0 : ℤ) ≤ 0 - 1 + (len : Int) ∧ 0 - 1 + (len : Int) < (len : Int))]
  congr 1
  omega

/-! ### Progress arithmetic -/

theorem round2_hundred : round2 100 = 100 := by
  with_unfolding_all rfl

theorem progressOf_full (l : List UploadChunk)
    (h : l.countP (fun c => c.is_uploaded) = l.length) (hne : l ≠ []) :
    progressOf l = 100 := by
  unfold progressOf
  rw [h, div_self, one_mul]
  · exact round2_hundred
  · exact Nat.cast_ne_zero.mpr (fun h0 => hne (List.length_eq_zero.mp h0))

/-! ### mcLocal and finalRecord projections -/

theorem mcLocal_chunks (u : Upload) (idx : Nat) (tag : String) :
    (mcLocal u idx tag).chunks = markChunk u.chunks idx tag := rfl

theorem mcLocal_progress (u : Upload) (idx : Nat) (tag : String) :
    (mcLocal u idx tag).upload_progress = progressOf (markChunk u.chunks idx tag) := rfl

theorem mcLocal_user_id (u : Upload) (idx : Nat) (tag : String) :
    (mcLocal u idx tag).user_id = u.user_id := rfl

theorem mcLocal_status (u : Upload) (idx : Nat) (tag : String) :
    (mcLocal u idx tag).status = u.status := rfl

theorem finalRecord_chunks (u : Upload) (idx : Nat) (tag : String) (f : Bool) :
    (finalRecord u idx tag f).chunks = markChunk u.chunks idx tag := by
  by_cases h : (mcLocal u idx tag).chunks.countP (fun c => c.is_uploaded) =
      (mcLocal u idx tag).chunks.length
  · simp only [finalRecord, if_pos h]; rfl
  · simp only [finalRecord, if_neg h]; rfl

theorem finalRecord_progress (u : Upload) (idx : Nat) (tag : String) (f : Bool) :
    (finalRecord u idx tag f).upload_progress = progressOf (markChunk u.chunks idx tag) := by
  by_cases h : (mcLocal u idx tag).chunks.countP (fun c => c.is_uploaded) =
      (mcLocal u idx tag).chunks.length
  · simp only [finalRecord, if_pos h]; rfl
  · simp only [finalRecord, if_neg h]; rfl

theorem finalRecord_user_id (u : Upload) (idx : Nat) (tag : String) (f : Bool) :
    (finalRecord u idx tag f).user_id = u.user_id := by
  by_cases h : (mcLocal u idx tag).chunks.countP (fun c => c.is_uploaded) =
      (mcLocal u idx tag).chunks.length
  · simp only [finalRecord, if_pos h]; rfl
  · simp only [finalRecord, if_neg h]; rfl

/-! ### Branch equations for mark_complete -/

theorem mark_complete_normal (db : Store) (i : String) (n : Int) (tag uid : String)
    (finOk : Bool) (u : Upload) (idx : Nat)
    (hdb : dbGet db i = some u) (ho : u.user_id = uid)
    (hidx : pyIndex u.chunks.length (n - 1) = some idx)
    (hnall : ¬ (mcLocal u idx tag).chunks.countP (fun c => c.is_uploaded) =
        (mcLocal u idx tag).chunks.length) :
    mark_complete db i n tag uid finOk =
      some (dbPut db i (mcLocal u idx tag),
        { upload_id := i, status := u.status
          progress := (mcLocal u idx tag).upload_progress
          message := "Chunk " ++ toString n ++ " saved"
          next_chunk := next_chunk (mcLocal u idx tag).chunks }) := by
  simp only [mark_complete, hdb, hidx, ho, if_true, eq_self_iff_true]
  rw [if_neg hnall, update_upload_of_get db i u _ hdb]

theorem mark_complete_finalize_ok (db : Store) (i : String) (n : Int) (tag uid : String)
    (u : Upload) (idx : Nat)
    (hdb : dbGet db i = some u) (ho : u.user_id = uid)
    (hidx : pyIndex u.chunks.length (n - 1) = some idx)
    (hall : (mcLocal u idx tag).chunks.countP (fun c => c.is_uploaded) =
        (mcLocal u idx tag).chunks.length) :
    mark_complete db i n tag uid true =
      some (dbPut (dbPut db i (mcLocal u idx tag)) i
              { mcLocal u idx tag with status := UploadStatus.completed },
        { upload_id := i, status := UploadStatus.completed, progress := 100
          message := "Upload completed" }) := by
  simp only [mark_complete, hdb, hidx, ho, if_true, eq_self_iff_true]
  rw [if_pos hall, update_upload_of_get db i u _ hdb,
    update_upload_of_get _ i (mcLocal u idx tag) _ (dbGet_dbPut_self db i _)]

theorem mark_complete_finalize_failed (db : Store) (i : String) (n : Int) (tag uid : String)
    (u : Upload) (idx : Nat)
    (hdb : dbGet db i = some u) (ho : u.user_id = uid)
    (hidx : pyIndex u.chunks.length (n - 1) = some idx)
    (hall : (mcLocal u idx tag).chunks.countP (fun c => c.is_uploaded) =
        (mcLocal u idx tag).chunks.length) :
    mark_complete db i n tag uid false =
      some (dbPut (dbPut db i (mcLocal u idx tag)) i
              { mcLocal u idx tag with status := UploadStatus.failed },
        { upload_id := i, status := UploadStatus.failed
          progress := (mcLocal u idx tag).upload_progress
          message := "S3 finalize failed" }) := by
  simp only [mark_complete, hdb, hidx, ho, if_true, eq_self_iff_true,
    Bool.false_eq_true, if_false]
  rw [if_pos hall, update_upload_of_get db i u _ hdb,
    update_upload_of_get _ i (mcLocal u idx tag) _ (dbGet_dbPut_self db i _)]

/-! ### Remaining branch equations and store projections -/

theorem mark_complete_not_found (db : Store) (i : String) (n : Int) (tag uid : String)
    (finOk : Bool) (h : dbGet db i = none) :
    mark_complete db i n tag uid finOk = some (db, notFoundResp i) := by
  simp only [mark_complete, h]

theorem mark_complete_wrong_owner (db : Store) (i : String) (n : Int) (tag uid : String)
    (finOk : Bool) (u : Upload) (h : dbGet db i = some u) (ho : u.user_id ≠ uid) :
    mark_complete db i n tag uid finOk = some (db, notFoundResp i) := by
  simp only [mark_complete, h, ho, if_false]

theorem mark_complete_crash (db : Store) (i : String) (n : Int) (tag uid : String)
    (finOk : Bool) (u : Upload) (h : dbGet db i = some u) (ho : u.user_id = uid)
    (hidx : pyIndex u.chunks.length (n - 1) = none) :
    mark_complete db i n tag uid finOk = none := by
  simp only [mark_complete, h, ho, hidx, eq_self_iff_true, if_true]

theorem presign_not_found (db : Store) (i : String) (n : Int) (uid : String)
    (url : Option String) (h : dbGet db i = none) :
    presign db i n uid url = some (notFoundResp i) := by
  simp only [presign, h]

theorem presign_wrong_owner (db : Store) (i : String) (n : Int) (uid : String)
    (url : Option String) (u : Upload) (h : dbGet db i = some u) (ho : u.user_id ≠ uid) :
    presign db i n uid url = some (notFoundResp i) := by
  simp only [presign, h, ho, if_false]

theorem mcStore_get_self (db : Store) (i : String) (n : Int) (tag uid : String)
    (finOk : Bool) (u : Upload) (idx : Nat)
    (hdb : dbGet db i = some u) (ho : u.user_id = uid)
    (hidx : pyIndex u.chunks.length (n - 1) = some idx) :
    dbGet (mcStore db i n tag uid finOk) i = some (finalRecord u idx tag finOk) := by
  unfold mcStore
  by_cases hall : (mcLocal u idx tag).chunks.countP (fun c => c.is_uploaded) =
      (mcLocal u idx tag).chunks.length
  · cases finOk
    · rw [mark_complete_finalize_failed db i n tag uid u idx hdb ho hidx hall]
      simp only [dbGet_dbPut_self, finalRecord, if_pos hall]
      simp
    · rw [mark_complete_finalize_ok db i n tag uid u idx hdb ho hidx hall]
      simp only [dbGet_dbPut_self, finalRecord, if_pos hall]
      simp
  · rw [mark_complete_normal db i n tag uid finOk u idx hdb ho hidx hall]
    simp only [dbGet_dbPut_self, finalRecord, if_neg hall]

theorem mcStore_get_ne (db : Store) (i : String) (n : Int) (tag uid : String)
    (finOk : Bool) (j : String) (hne : j ≠ i) :
    dbGet (mcStore db i n tag uid finOk) j = dbGet db j := by
  unfold mcStore
  rcases hdb : dbGet db i with _ | u
  · rw [mark_complete_not_found db i n tag uid finOk hdb]
  · by_cases ho : u.user_id = uid
    · rcases hidx : pyIndex u.chunks.length (n - 1) with _ | idx
      · rw [mark_complete_crash db i n tag uid finOk u hdb ho hidx]
      · by_cases hall2 : (mcLocal u idx tag).chunks.countP (fun c => c.is_uploaded) =
            (mcLocal u idx tag).chunks.length
        all_goals cases finOk
        all_goals
          first
            | (rw [mark_complete_finalize_failed db i n tag uid u idx hdb ho hidx hall2]
               rw [dbGet_dbPut_ne _ _ _ _ (Ne.symm hne), dbGet_dbPut_ne _ _ _ _ (Ne.symm hne)])
            | (rw [mark_complete_finalize_ok db i n tag uid u idx hdb ho hidx hall2]
               rw [dbGet_dbPut_ne _ _ _ _ (Ne.symm hne), dbGet_dbPut_ne _ _ _ _ (Ne.symm hne)])
            | (rw [mark_complete_normal db i n tag uid _ u idx hdb ho hidx hall2]
               rw [dbGet_dbPut_ne _ _ _ _ (Ne.symm hne)])
    · rw [mark_complete_wrong_owner db i n tag uid finOk u hdb ho]

/-! ### The reachability invariant -/

theorem markChunk_ne_nil (l : List UploadChunk) (n : Nat) (t : String) (h : l ≠ []) :
    markChunk l n t ≠ [] := by
  intro hnil
  apply h
  have := markChunk_length l n t
  rw [hnil] at this
  exact List.length_eq_zero.mp this.symm

theorem make_chunks_length (size chunk : Nat) :
    (make_chunks size chunk).length = (size + chunk - 1) / chunk := by
  simp [make_chunks]

theorem make_chunks_ne_nil (size chunk : Nat) (hs : 0 < size) (hc : 0 < chunk) :
    make_chunks size chunk ≠ [] := by
  have hlen : 0 < (make_chunks size chunk).length := by
    rw [make_chunks_length]
    have h1 : 1 * chunk ≤ size + chunk - 1 := by omega
    exact (Nat.le_div_iff_mul_le hc).mpr h1
  exact List.length_pos.mp hlen

/-- The inductive invariant: every persisted record has a nonempty chunk plan,
and a `completed` record has `progress = 100` with every chunk uploaded. -/
def GoodUpload (u : Upload) : Prop :=
  u.chunks ≠ [] ∧
    (u.status = UploadStatus.completed →
      u.upload_progress = 100 ∧ ∀ c ∈ u.chunks, c.is_uploaded = true)

def GoodDB (db : Store) : Prop :=
  ∀ i u, dbGet db i = some u → GoodUpload u

theorem goodUpload_finalRecord (u : Upload) (idx : Nat) (tag : String) (f : Bool)
    (gu : GoodUpload u) : GoodUpload (finalRecord u idx tag f) := by
  have hne : (finalRecord u idx tag f).chunks ≠ [] := by
    rw [finalRecord_chunks]
    exact markChunk_ne_nil _ _ _ gu.1
  refine ⟨hne, ?_⟩
  intro hcomp
  by_cases hall : (mcLocal u idx tag).chunks.countP (fun c => c.is_uploaded) =
      (mcLocal u idx tag).chunks.length
  · have hallmem : ∀ c ∈ markChunk u.chunks idx tag, c.is_uploaded = true := by
      apply List.countP_eq_length.mp
      simpa [mcLocal_chunks] using hall
    have hprog : (finalRecord u idx tag f).upload_progress = 100 := by
      rw [finalRecord_progress]
      apply progressOf_full
      · simpa [mcLocal_chunks] using hall
      · exact markChunk_ne_nil _ _ _ gu.1
    refine ⟨hprog, ?_⟩
    rw [finalRecord_chunks]
    exact hallmem
  · exfalso
    have hstat : (finalRecord u idx tag f).status = u.status := by
      simp only [finalRecord, if_neg hall]
      exact mcLocal_status u idx tag
    rw [hstat] at hcomp
    have hmem := (gu.2 hcomp).2
    have hmem1 : ∀ c ∈ markChunk u.chunks idx tag, c.is_uploaded = true :=
      markChunk_all _ _ _ hmem
    exact hall (by simpa [mcLocal_chunks] using List.countP_eq_length.mpr hmem1)

theorem goodDB_step_complete (db : Store) (i : String) (n : Int) (tag uid : String)
    (f : Bool) (h : GoodDB db) : GoodDB (mcStore db i n tag uid f) := by
  intro j v hv
  by_cases hji : j = i
  · subst hji
    rcases hdb : dbGet db j with _ | u
    · rw [mcStore, mark_complete_not_found db j n tag uid f hdb] at hv
      rw [hdb] at hv
      cases hv
    · by_cases ho : u.user_id = uid
      · rcases hidx : pyIndex u.chunks.length (n - 1) with _ | idx
        · rw [mcStore, mark_complete_crash db j n tag uid f u hdb ho hidx] at hv
          rw [hdb] at hv
          injection hv with hv2
          subst hv2
          exact h j u hdb
        · rw [mcStore_get_self db j n tag uid f u idx hdb ho hidx] at hv
          injection hv with hv2
          subst hv2
          exact goodUpload_finalRecord u idx tag f (h j u hdb)
      · rw [mcStore, mark_complete_wrong_owner db j n tag uid f u hdb ho] at hv
        rw [hdb] at hv
        injection hv with hv2
        subst hv2
        exact h j u hdb
  · rw [mcStore_get_ne db i n tag uid f j hji] at hv
    exact h j v hv

theorem goodDB_step_initiate (db : Store) (req : UploadInitiate)
    (uid newId bucket : String) (sid : Option String)
    (h : GoodDB db) (hfs : 0 < req.file_size) (hcs : 0 < req.chunk_size) :
    GoodDB (initiate db req uid newId sid bucket).1 := by
  unfold initiate
  by_cases hbig : max_file_size < req.file_size
  · rw [if_pos hbig]
    exact h
  · rw [if_neg hbig]
    rcases sid with _ | s
    · exact h
    · intro j v hv
      by_cases hji : j = newId
      · subst hji
        rw [dbGet_dbPut_self] at hv
        injection hv with hv2
        subst hv2
        constructor
        · exact make_chunks_ne_nil _ _ hfs hcs
        · intro habs
          cases habs
      · rw [dbGet_dbPut_ne _ _ _ _ (Ne.symm hji)] at hv
        exact h j v hv

theorem reach_goodDB (db : Store) (h : Reach db) : GoodDB db := by
  induction h with
  | empty =>
      intro j v hv
      cases hv
  | step_initiate db req uid newId bucket sid hr h1 h2 h3 h4 ih =>
      exact goodDB_step_initiate db req uid newId bucket sid ih h1
        (lt_of_lt_of_le (by norm_num) h3)
  | step_complete db i n tag uid f hr ih =>
      exact goodDB_step_complete db i n tag uid f ih

/-! ### A concrete reachable run (two 1 MiB chunks of a 2 MiB file) -/

def exReq : UploadInitiate :=
  { filename := "f.bin", file_size := 2 * 1024 * 1024, content_type := "video/mp4"
    chunk_size := 1024 * 1024 }

/-- Store after `Initiate` (owner "alice", fresh id "u1", S3 session "sess"). -/
def exDB1 : Store := (initiate [] exReq "alice" "u1" (some "sess") "bkt").1

/-- Store after `CompleteChunk` of chunk 1 (part tag "t1"). -/
def exDB2 : Store := mcStore exDB1 "u1" 1 "t1" "alice" true

/-- Store after `CompleteChunk` of the last chunk 2 with a FAILING finalize. -/
def exDB3 : Store := mcStore exDB2 "u1" 2 "t2" "alice" false

/-- Store after `CompleteChunk` of the last chunk 2 with a successful finalize. -/
def exDB4 : Store := mcStore exDB2 "u1" 2 "t2" "alice" true

def exChunk1 : UploadChunk := { chunk_number := 1, start_byte := 0, end_byte := 1048575 }

def exChunk2 : UploadChunk := { chunk_number := 2, start_byte := 1048576, end_byte := 2097151 }

/-- The record persisted by the example `Initiate`. -/
def exU1 : Upload :=
  { id := some "u1", user_id := "alice", filename := "f.bin"
    file_size := 2 * 1024 * 1024, content_type := "video/mp4"
    upload_id := some "sess", s3_key := some "uploads/alice/u1/f.bin"
    s3_bucket := some "bkt", status := UploadStatus.uploading
    chunks := [exChunk1, exChunk2] }

/-- The record persisted after completing chunk 1. -/
def exU2 : Upload :=
  { exU1 with
    chunks := [{ exChunk1 with is_uploaded := true, etag := some "t1" }, exChunk2]
    upload_progress := 50 }

theorem exDB1_get : dbGet exDB1 "u1" = some exU1 := by
  with_unfolding_all rfl

theorem exDB2_get : dbGet exDB2 "u1" = some exU2 := by
  with_unfolding_all rfl

theorem exReach1 : Reach exDB1 :=
  Reach.step_initiate [] exReq "alice" "u1" "bkt" (some "sess") Reach.empty
    (by decide) (by decide) (by decide) (by decide)

theorem exReach2 : Reach exDB2 :=
  Reach.step_complete exDB1 "u1" 1 "t1" "alice" true exReach1

theorem exReach3 : Reach exDB3 :=
  Reach.step_complete exDB2 "u1" 2 "t2" "alice" false exReach2

theorem exReach4 : Reach exDB4 :=
  Reach.step_complete exDB2 "u1" 2 "t2" "alice" true exReach2

theorem make_chunks_bounds (size chunk : Nat) (hs : 0 < size) (hc : 0 < chunk) :
    size ≤ ((size + chunk - 1) / chunk) * chunk ∧
      ((size + chunk - 1) / chunk) * chunk < size + chunk ∧
      0 < (size + chunk - 1) / chunk := by
  have hmod := Nat.div_add_mod (size + chunk - 1) chunk
  have hlt : (size + chunk - 1) % chunk < chunk := Nat.mod_lt _ hc
  have hcomm : chunk * ((size + chunk - 1) / chunk) =
      ((size + chunk - 1) / chunk) * chunk := Nat.mul_comm _ _
  have hpos : 0 < (size + chunk - 1) / chunk :=
    (Nat.le_div_iff_mul_le hc).mpr (by omega)
  omega

theorem make_chunks_ceil (size chunk : Nat) (hs : 0 < size) (hc : 0 < chunk) :
    Nat.ceil ((size : ℚ) / (chunk : ℚ)) = (size + chunk - 1) / chunk := by
  obtain ⟨h1, h2, h3⟩ := make_chunks_bounds size chunk hs hc
  have hcq : (0 : ℚ) < (chunk : ℚ) := by exact_mod_cast hc
  rw [Nat.ceil_eq_iff (by omega)]
  constructor
  · rw [lt_div_iff₀ hcq]
    have hent : (((size + chunk - 1) / chunk - 1 : ℕ) : ℚ) =
        (((size + chunk - 1) / chunk : ℕ) : ℚ) - 1 := by
      push_cast [Nat.cast_sub h3]
      ring
    rw [hent]
    have e : ((size + chunk - 1) / chunk - 1) * chunk + chunk =
        ((size + chunk - 1) / chunk) * chunk := by
      have h4 : (size + chunk - 1) / chunk - 1 + 1 = (size + chunk - 1) / chunk := by omega
      calc ((size + chunk - 1) / chunk - 1) * chunk + chunk
          = ((size + chunk - 1) / chunk - 1 + 1) * chunk := by ring
        _ = ((size + chunk - 1) / chunk) * chunk := by rw [h4]
    have hnat : ((size + chunk - 1) / chunk - 1) * chunk < size := by omega
    have hq : ((((size + chunk - 1) / chunk - 1) * chunk : ℕ) : ℚ) < (size : ℚ) := by
      exact_mod_cast hnat
    push_cast at hq
    rw [hent] at hq
    linarith
  · rw [div_le_iff₀ hcq]
    have hq : ((size : ℕ) : ℚ) ≤ ((((size + chunk - 1) / chunk) * chunk : ℕ) : ℚ) := by
      exact_mod_cast h1
    push_cast at hq ⊢
    linarith

theorem make_chunks_getElem (size chunk : Nat) (i : Nat)
    (h : i < (make_chunks size chunk).length) :
    (make_chunks size chunk)[i]? =
      some { chunk_number := i + 1, start_byte := i * chunk
             end_byte := min (size - 1) ((i + 1) * chunk - 1) } := by
  rw [make_chunks_length] at h
  simp [make_chunks, List.getElem?_map, List.getElem?_range h]

theorem make_chunks_last (size chunk : Nat) (hs : 0 < size) (hc : 0 < chunk) :
    ((make_chunks size chunk).getLast?).map (fun c => c.end_byte) = some (size - 1) := by
  obtain ⟨h1, h2, h3⟩ := make_chunks_bounds size chunk hs hc
  rw [List.getLast?_eq_getElem?, make_chunks_getElem size chunk _
    (by rw [make_chunks_length]; omega)]
  rw [make_chunks_length]
  simp only [Option.map_some']
  have h4 : (size + chunk - 1) / chunk - 1 + 1 = (size + chunk - 1) / chunk := by omega
  rw [h4]
  have h5 : size - 1 ≤ ((size + chunk - 1) / chunk) * chunk - 1 := by omega
  rw [Nat.min_eq_left h5]

theorem make_chunks_contiguous (size chunk : Nat) (hs : 0 < size) (hc : 0 < chunk)
    (i : Nat) (h : i + 1 < (make_chunks size chunk).length) :
    ((make_chunks size chunk)[i + 1]?).map (fun c => c.start_byte) =
      ((make_chunks size chunk)[i]?).map (fun c => c.end_byte + 1) := by
  obtain ⟨h1, h2, h3⟩ := make_chunks_bounds size chunk hs hc
  rw [make_chunks_getElem size chunk _ h, make_chunks_getElem size chunk _ (by omega)]
  simp only [Option.map_some', Option.some.injEq]
  rw [make_chunks_length] at h
  have e : ((size + chunk - 1) / chunk - 1) * chunk + chunk =
      ((size + chunk - 1) / chunk) * chunk := by
    have h4 : (size + chunk - 1) / chunk - 1 + 1 = (size + chunk - 1) / chunk := by omega
    calc ((size + chunk - 1) / chunk - 1) * chunk + chunk
        = ((size + chunk - 1) / chunk - 1 + 1) * chunk := by ring
      _ = ((size + chunk - 1) / chunk) * chunk := by rw [h4]
  have hmono : (i + 1) * chunk ≤ ((size + chunk - 1) / chunk - 1) * chunk :=
    Nat.mul_le_mul_right chunk (by omega)
  have hpos : 0 < (i + 1) * chunk := Nat.mul_pos (by omega) hc
  have hlt : (i + 1) * chunk ≤ size := by omega
  have h5 : (i + 1) * chunk - 1 ≤ size - 1 := by omega
  rw [Nat.min_eq_right h5]
  omega

theorem make_chunks_cover (size chunk : Nat) (hs : 0 < size) (hc : 0 < chunk)
    (b : Nat) (hb : b < size) (i : Nat) (hi : i < (make_chunks size chunk).length) :
    (∃ ci, (make_chunks size chunk)[i]? = some ci ∧
        ci.start_byte ≤ b ∧ b ≤ ci.end_byte) ↔ b / chunk = i := by
  rw [make_chunks_getElem size chunk i hi]
  rw [make_chunks_length] at hi
  obtain ⟨h1, h2, h3⟩ := make_chunks_bounds size chunk hs hc
  have hpos : 0 < (i + 1) * chunk := Nat.mul_pos (by omega) hc
  constructor
  · rintro ⟨ci, hci, hlo, hhi⟩
    injection hci with hci2
    subst hci2
    simp only at hlo hhi
    have hmin : b ≤ (i + 1) * chunk - 1 := le_trans hhi (Nat.min_le_right _ _)
    have hblt : b < (i + 1) * chunk := by omega
    exact Nat.div_eq_of_lt_le hlo hblt
  · intro hdiv
    refine ⟨_, rfl, ?_, ?_⟩
    · simp only
      rw [← hdiv]
      exact Nat.div_mul_le_self b chunk
    · simp only
      have hmod := Nat.div_add_mod b chunk
      have hmlt : b % chunk < chunk := Nat.mod_lt _ hc
      have e2 : (b / chunk + 1) * chunk = chunk * (b / chunk) + chunk := by ring
      have hblt : b < (b / chunk + 1) * chunk := by omega
      rw [hdiv] at hblt
      exact le_min (by omega) (by omega)

/-- The full chunk-plan contract of the spec's Chunk Planner, for one input
pair: chunk count is the ceiling `ceil(size / chunk)`; 0-based chunk `i` spans
`[i*chunk, min(size-1, (i+1)*chunk - 1)]` and carries `chunk_number = i + 1`;
the last chunk ends at `size - 1`; consecutive chunks are contiguous; and a
byte `b < size` lies in chunk `i` exactly when `i = b / chunk` (so the ranges
are non-overlapping and exactly cover `[0, size-1]`). -/
def ChunkPlanOK (size chunk : Nat) : Prop :=
  (make_chunks size chunk).length = (size + chunk - 1) / chunk ∧
  Nat.ceil ((size : ℚ) / (chunk : ℚ)) = (make_chunks size chunk).length ∧
  0 < (make_chunks size chunk).length ∧
  (∀ i, i < (make_chunks size chunk).length →
    (make_chunks size chunk)[i]? =
      some { chunk_number := i + 1, start_byte := i * chunk
             end_byte := min (size - 1) ((i + 1) * chunk - 1) }) ∧
  ((make_chunks size chunk).getLast?).map (fun c => c.end_byte) = some (size - 1) ∧
  (∀ i, i + 1 < (make_chunks size chunk).length →
    ((make_chunks size chunk)[i + 1]?).map (fun c => c.start_byte) =
      ((make_chunks size chunk)[i]?).map (fun c => c.end_byte + 1)) ∧
  (∀ b, b < size → ∀ i, i < (make_chunks size chunk).length →
    ((∃ ci, (make_chunks size chunk)[i]? = some ci ∧
        ci.start_byte ≤ b ∧ b ≤ ci.end_byte) ↔ b / chunk = i))

theorem chunkPlanOK_of_pos (size chunk : Nat) (hs : 0 < size) (hc : 0 < chunk) :
    ChunkPlanOK size chunk := by
  obtain ⟨h1, h2, h3⟩ := make_chunks_bounds size chunk hs hc
  refine ⟨make_chunks_length size chunk, ?_, ?_, ?_, ?_, ?_, ?_⟩
  · rw [make_chunks_length]
    exact make_chunks_ceil size chunk hs hc
  · rw [make_chunks_length]
    exact h3
  · exact fun i hi => make_chunks_getElem size chunk i hi
  · exact make_chunks_last size chunk hs hc
  · exact fun i hi => make_chunks_contiguous size chunk hs hc i hi
  · exact fun b hb i hi => make_chunks_cover size chunk hs hc b hb i hi

/-! ### Further derived facts and example records -/

theorem mark_complete_isSome (db : Store) (i : String) (n : Int) (tag uid : String)
    (f : Bool) (u : Upload) (idx : Nat)
    (hdb : dbGet db i = some u) (ho : u.user_id = uid)
    (hidx : pyIndex u.chunks.length (n - 1) = some idx) :
    mark_complete db i n tag uid f ≠ none := by
  by_cases hall : (mcLocal u idx tag).chunks.countP (fun c => c.is_uploaded) =
      (mcLocal u idx tag).chunks.length
  · cases f
    · rw [mark_complete_finalize_failed db i n tag uid u idx hdb ho hidx hall]
      simp
    · rw [mark_complete_finalize_ok db i n tag uid u idx hdb ho hidx hall]
      simp
  · rw [mark_complete_normal db i n tag uid f u idx hdb ho hidx hall]
    simp

/-- The record persisted by the example run after both chunks complete and the
finalize call succeeds. -/
def exU4 : Upload :=
  { exU1 with
    chunks := [{ exChunk1 with is_uploaded := true, etag := some "t1" },
               { exChunk2 with is_uploaded := true, etag := some "t2" }]
    upload_progress := 100
    status := UploadStatus.completed }

theorem exDB4_get : dbGet exDB4 "u1" = some exU4 := by
  with_unfolding_all rfl

/-- Two overlapped `CompleteChunk` executions on the same upload, for chunks
`idxA` and `idxB`: both `get_upload` reads return the same snapshot `u`
(each read happens before either write), then the two `update_upload`
read-modify-write cycles land one after the other.  The write phase is exactly
`update_upload db i (mcLocal u idx tag)`, the persistence step of
`mark_complete` (line 115 of `upload_service.py`); `DynamoDBAdapter.update_upload`
issues an unconditional `put_item` with no condition expression or version
check, so the second write overwrites the first. -/
def interleaved (db : Store) (i : String) (u : Upload) (idxA idxB : Nat)
    (tagA tagB : String) : Store :=
  update_upload (update_upload db i (mcLocal u idxA tagA)) i (mcLocal u idxB tagB)

/-! ### Correctness of the float-faithful chunk planner on the admissible domain -/

theorem log2Aux_spec (fuel : Nat) : ∀ n : Nat, 1 ≤ n → n ≤ fuel →
    2 ^ log2Aux fuel n ≤ n ∧ n < 2 ^ (log2Aux fuel n + 1) := by
  induction fuel with
  | zero => intro n h1 h2; omega
  | succ f ih =>
      intro n h1 h2
      by_cases hn : n ≤ 1
      · have hn1 : n = 1 := by omega
        subst hn1
        simp [log2Aux]
      · have hrec := ih (n / 2) (by omega) (by omega)
        unfold log2Aux
        rw [if_neg hn]
        set k := log2Aux f (n / 2) with hk
        have e1 : 2 ^ (k + 1) = 2 * 2 ^ k := by ring
        have e2 : 2 ^ (k + 1 + 1) = 2 * 2 ^ (k + 1) := by ring
        omega

theorem natLog2_spec (n : Nat) (h : 1 ≤ n) :
    2 ^ natLog2 n ≤ n ∧ n < 2 ^ (natLog2 n + 1) :=
  log2Aux_spec n n h le_rfl

theorem mulPow2_eq (q : ℚ) (e : Int) : mulPow2 q e = q * (2 : ℚ) ^ e := by
  unfold mulPow2
  split
  · rename_i h
    rw [Nat.cast_pow, ← zpow_natCast ((2 : ℕ) : ℚ) e.toNat, Int.toNat_of_nonneg h]
    norm_num
  · rename_i h
    rw [Nat.cast_pow, ← zpow_natCast ((2 : ℕ) : ℚ) (-e).toNat,
      Int.toNat_of_nonneg (by omega : (0:ℤ) ≤ -e)]
    rw [div_eq_mul_inv, ← zpow_neg]
    norm_num

theorem pyRoundHalfEven_bounds (x : ℚ) :
    x - 1/2 ≤ (pyRoundHalfEven x : ℚ) ∧ (pyRoundHalfEven x : ℚ) ≤ x + 1/2 := by
  simp only [pyRoundHalfEven]
  have h1 : ((Rat.floor x : ℤ) : ℚ) ≤ x := Int.floor_le x
  have h2 : x < ((Rat.floor x : ℤ) : ℚ) + 1 := Int.lt_floor_add_one x
  split
  · rename_i hc
    constructor <;> [linarith; linarith]
  · split
    · rename_i hc hc2
      push_cast
      constructor <;> [linarith; linarith]
    · split
      · rename_i hc hc2 hc3
        constructor <;> [linarith; linarith]
      · rename_i hc hc2 hc3
        push_cast
        constructor <;> [linarith; linarith]

theorem pyRoundHalfEven_intCast (n : ℤ) : pyRoundHalfEven (n : ℚ) = n := by
  have hf : Rat.floor ((n : ℤ) : ℚ) = n := by
    show ⌊((n : ℤ) : ℚ)⌋ = n
    exact Int.floor_intCast n
  simp only [pyRoundHalfEven, hf]
  norm_num

theorem ratCeil_eq_ceil (q : ℚ) : Rat.ceil q = ⌈q⌉ := by
  unfold Rat.ceil
  split
  · rename_i h
    have hq : ((q.num : ℤ) : ℚ) = q := (Rat.den_eq_one_iff q).mp h
    conv_rhs => rw [← hq]
    rw [Int.ceil_intCast]
  · rename_i h
    have hfl : ⌊q⌋ = q.num / (q.den : ℤ) := Rat.floor_def
    have hne : ((⌊q⌋ : ℤ) : ℚ) ≠ q := by
      intro habs
      apply h
      rw [← habs]
      exact Rat.den_intCast _
    have hceil : ⌈q⌉ = ⌊q⌋ + 1 := by
      rw [Int.ceil_eq_iff]
      constructor
      · push_cast
        have hle := Int.floor_le q
        have hlt : ((⌊q⌋ : ℤ) : ℚ) < q := lt_of_le_of_ne hle hne
        linarith
      · push_cast
        have := Int.lt_floor_add_one q
        linarith
    rw [hceil, hfl]

theorem ratLog2Floor_spec (a b : Nat) (ha : 1 ≤ a) (hb : 1 ≤ b) :
    (2:ℚ) ^ ratLog2Floor a b ≤ (a : ℚ) / b ∧
      (a : ℚ) / b < (2:ℚ) ^ (ratLog2Floor a b + 1) := by
  obtain ⟨ha1, ha2⟩ := natLog2_spec a ha
  obtain ⟨hb1, hb2⟩ := natLog2_spec b hb
  have hbq : (0:ℚ) < (b : ℚ) := by exact_mod_cast hb
  have ha1q : (2:ℚ) ^ ((natLog2 a : ℤ)) ≤ (a : ℚ) := by
    rw [zpow_natCast]
    exact_mod_cast ha1
  have ha2q : (a : ℚ) < (2:ℚ) ^ ((natLog2 a : ℤ) + 1) := by
    have he : ((natLog2 a : ℤ) + 1) = ((natLog2 a + 1 : ℕ) : ℤ) := by push_cast; ring
    rw [he, zpow_natCast]
    exact_mod_cast ha2
  have hb1q : (2:ℚ) ^ ((natLog2 b : ℤ)) ≤ (b : ℚ) := by
    rw [zpow_natCast]
    exact_mod_cast hb1
  have hb2q : (b : ℚ) < (2:ℚ) ^ ((natLog2 b : ℤ) + 1) := by
    have he : ((natLog2 b : ℤ) + 1) = ((natLog2 b + 1 : ℕ) : ℤ) := by push_cast; ring
    rw [he, zpow_natCast]
    exact_mod_cast hb2
  simp only [ratLog2Floor]
  split
  · rename_i htest
    rw [mulPow2_eq] at htest
    constructor
    · rw [le_div_iff₀ hbq]
      linarith
    · rw [div_lt_iff₀ hbq]
      have key : (2:ℚ) ^ ((natLog2 a : ℤ) + 1) =
          (2:ℚ) ^ (((natLog2 a : ℤ) - (natLog2 b : ℤ)) + 1) * (2:ℚ) ^ (natLog2 b : ℤ) := by
        rw [← zpow_add₀ (two_ne_zero)]
        congr 1
        ring
      have hmul : (2:ℚ) ^ (((natLog2 a : ℤ) - (natLog2 b : ℤ)) + 1) * (2:ℚ) ^ (natLog2 b : ℤ) ≤
          (2:ℚ) ^ (((natLog2 a : ℤ) - (natLog2 b : ℤ)) + 1) * (b : ℚ) :=
        mul_le_mul_of_nonneg_left hb1q (le_of_lt (zpow_pos two_pos _))
      calc (a : ℚ) < (2:ℚ) ^ ((natLog2 a : ℤ) + 1) := ha2q
        _ = (2:ℚ) ^ (((natLog2 a : ℤ) - (natLog2 b : ℤ)) + 1) * (2:ℚ) ^ (natLog2 b : ℤ) := key
        _ ≤ (2:ℚ) ^ (((natLog2 a : ℤ) - (natLog2 b : ℤ)) + 1) * (b : ℚ) := hmul
  · rename_i htest
    rw [mulPow2_eq] at htest
    push_neg at htest
    constructor
    · rw [le_div_iff₀ hbq]
      have key : (2:ℚ) ^ (((natLog2 a : ℤ) - (natLog2 b : ℤ)) - 1) * (2:ℚ) ^ ((natLog2 b : ℤ) + 1) =
          (2:ℚ) ^ (natLog2 a : ℤ) := by
        rw [← zpow_add₀ (two_ne_zero)]
        congr 1
        ring
      have hmul : (2:ℚ) ^ (((natLog2 a : ℤ) - (natLog2 b : ℤ)) - 1) * (b : ℚ) <
          (2:ℚ) ^ (((natLog2 a : ℤ) - (natLog2 b : ℤ)) - 1) * (2:ℚ) ^ ((natLog2 b : ℤ) + 1) :=
        mul_lt_mul_of_pos_left hb2q (zpow_pos two_pos _)
      have : (2:ℚ) ^ (((natLog2 a : ℤ) - (natLog2 b : ℤ)) - 1) * (b : ℚ) < (a : ℚ) := by
        calc (2:ℚ) ^ (((natLog2 a : ℤ) - (natLog2 b : ℤ)) - 1) * (b : ℚ)
            < (2:ℚ) ^ (((natLog2 a : ℤ) - (natLog2 b : ℤ)) - 1) * (2:ℚ) ^ ((natLog2 b : ℤ) + 1) := hmul
          _ = (2:ℚ) ^ (natLog2 a : ℤ) := key
          _ ≤ (a : ℚ) := ha1q
      linarith
    · rw [div_lt_iff₀ hbq]
      have he : ((natLog2 a : ℤ) - (natLog2 b : ℤ)) - 1 + 1 =
          ((natLog2 a : ℤ) - (natLog2 b : ℤ)) := by ring
      rw [he]
      linarith

theorem roundToBinade_bounds (q : ℚ) (e : Int) :
    q - (2:ℚ) ^ (e - 1) ≤ roundToBinade q e ∧
      roundToBinade q e ≤ q + (2:ℚ) ^ (e - 1) := by
  unfold roundToBinade
  rw [mulPow2_eq, mulPow2_eq]
  obtain ⟨hlo, hhi⟩ := pyRoundHalfEven_bounds (q * (2:ℚ) ^ (-e))
  have hpos : (0:ℚ) < (2:ℚ) ^ e := zpow_pos two_pos e
  have e1 : (2:ℚ) ^ (-e) * (2:ℚ) ^ e = 1 := by
    rw [← zpow_add₀ (two_ne_zero)]
    norm_num
  have e2 : (2:ℚ) ^ (e - 1) = (2:ℚ) ^ e / 2 := by
    rw [zpow_sub₀ (two_ne_zero)]
    norm_num
  constructor
  · have h1 : (q * (2:ℚ) ^ (-e) - 1/2) * (2:ℚ) ^ e ≤
        ((pyRoundHalfEven (q * (2:ℚ) ^ (-e)) : ℤ) : ℚ) * (2:ℚ) ^ e :=
      mul_le_mul_of_nonneg_right hlo (le_of_lt hpos)
    have h2 : (q * (2:ℚ) ^ (-e) - 1/2) * (2:ℚ) ^ e = q - (2:ℚ) ^ (e - 1) := by
      calc (q * (2:ℚ) ^ (-e) - 1/2) * (2:ℚ) ^ e
          = q * ((2:ℚ) ^ (-e) * (2:ℚ) ^ e) - (2:ℚ) ^ e / 2 := by ring
        _ = q - (2:ℚ) ^ (e - 1) := by rw [e1, e2]; ring
    linarith
  · have h1 : ((pyRoundHalfEven (q * (2:ℚ) ^ (-e)) : ℤ) : ℚ) * (2:ℚ) ^ e ≤
        (q * (2:ℚ) ^ (-e) + 1/2) * (2:ℚ) ^ e :=
      mul_le_mul_of_nonneg_right hhi (le_of_lt hpos)
    have h2 : (q * (2:ℚ) ^ (-e) + 1/2) * (2:ℚ) ^ e = q + (2:ℚ) ^ (e - 1) := by
      calc (q * (2:ℚ) ^ (-e) + 1/2) * (2:ℚ) ^ e
          = q * ((2:ℚ) ^ (-e) * (2:ℚ) ^ e) + (2:ℚ) ^ e / 2 := by ring
        _ = q + (2:ℚ) ^ (e - 1) := by rw [e1, e2]; ring
    linarith

theorem roundToBinade_eq_self (q : ℚ) (e : Int) (n : ℤ)
    (h : q * (2:ℚ) ^ (-e) = (n : ℚ)) : roundToBinade q e = q := by
  unfold roundToBinade
  rw [mulPow2_eq, mulPow2_eq, h, pyRoundHalfEven_intCast]
  have e1 : (2:ℚ) ^ (-e) * (2:ℚ) ^ e = 1 := by
    rw [← zpow_add₀ (two_ne_zero)]
    norm_num
  have h2 : q = (n : ℚ) * (2:ℚ) ^ e := by
    calc q = q * ((2:ℚ) ^ (-e) * (2:ℚ) ^ e) := by rw [e1]; ring
      _ = (q * (2:ℚ) ^ (-e)) * (2:ℚ) ^ e := by ring
      _ = (n : ℚ) * (2:ℚ) ^ e := by rw [h]
  exact h2.symm

theorem pyCeilDiv_eq (a b : Nat) (ha : 0 < a) (ha53 : a < 2 ^ 53) (hb : 0 < b)
    (hL : -1022 ≤ ratLog2Floor a b) :
    pyCeilDiv a b = some ((a + b - 1) / b) := by
  have hbq : (0:ℚ) < (b : ℚ) := by exact_mod_cast hb
  have haq : (0:ℚ) < (a : ℚ) := by exact_mod_cast ha
  obtain ⟨hq1, hq2⟩ := ratLog2Floor_spec a b ha hb
  set L := ratLog2Floor a b with hLdef
  set q : ℚ := (a : ℚ) / b with hqdef
  have hq0 : 0 < q := div_pos haq hbq
  have he : max (-1074) (L - 52) = L - 52 := by omega
  have hqa : q ≤ (a : ℚ) := by
    rw [hqdef, div_le_iff₀ hbq]
    calc (a:ℚ) = (a:ℚ) * 1 := by ring
      _ ≤ (a:ℚ) * b := by
          apply mul_le_mul_of_nonneg_left _ (le_of_lt haq)
          exact_mod_cast hb
  have h253 : (2:ℚ) ^ (53:ℤ) = ((2 ^ 53 : ℕ) : ℚ) := by
    rw [show (53:ℤ) = ((53:ℕ):ℤ) from rfl, zpow_natCast]
    push_cast
    ring
  have ha53q : (a : ℚ) < (2:ℚ) ^ (53:ℤ) := by
    rw [h253]
    exact_mod_cast ha53
  have hL53 : L ≤ 52 := by
    by_contra hcon
    push_neg at hcon
    have h1 : (2:ℚ) ^ (53:ℤ) ≤ (2:ℚ) ^ L :=
      (zpow_le_zpow_iff_right₀ one_lt_two).mpr (by omega)
    linarith
  have hba : (b:ℚ) * (2:ℚ) ^ L ≤ (a : ℚ) := by
    have h1 : (b:ℚ) * (2:ℚ) ^ L ≤ (b:ℚ) * q :=
      mul_le_mul_of_nonneg_left hq1 (le_of_lt hbq)
    have h2 : (b:ℚ) * q = a := by
      rw [hqdef, mul_comm]
      exact div_mul_cancel₀ _ (ne_of_gt hbq)
    linarith
  have herr : (2:ℚ) ^ (L - 53) * (b : ℚ) < 1 := by
    have hsplit : (2:ℚ) ^ (L - 53) * (b : ℚ) = ((b:ℚ) * (2:ℚ) ^ L) * (2:ℚ) ^ (-53 : ℤ) := by
      rw [zpow_sub₀ (two_ne_zero), zpow_neg]
      field_simp
      ring
    have hstep : ((b:ℚ) * (2:ℚ) ^ L) * (2:ℚ) ^ (-53 : ℤ) < (2:ℚ) ^ (53:ℤ) * (2:ℚ) ^ (-53 : ℤ) := by
      apply mul_lt_mul_of_pos_right _ (zpow_pos two_pos _)
      linarith
    have hone : (2:ℚ) ^ (53:ℤ) * (2:ℚ) ^ (-53 : ℤ) = 1 := by
      rw [← zpow_add₀ (two_ne_zero)]
      norm_num
    linarith [hsplit ▸ hstep, hone ▸ hstep]
  have hbounds := roundToBinade_bounds q (L - 52)
  have he1 : (L - 52) - 1 = L - 53 := by ring
  rw [he1] at hbounds
  obtain ⟨hrlo, hrhi⟩ := hbounds
  have herr2 : (2:ℚ) ^ (L - 53) < 1 / (b:ℚ) := by
    rw [lt_div_iff₀ hbq]
    exact herr
  have hover : roundToBinade q (L - 52) < mulPow2 1 1024 := by
    rw [mulPow2_eq, one_mul]
    have h1 : (2:ℚ) ^ (53:ℤ) + (2:ℚ) ^ (53:ℤ) ≤ (2:ℚ) ^ (1024:ℤ) := by
      have h2 : (2:ℚ) ^ (54:ℤ) ≤ (2:ℚ) ^ (1024:ℤ) :=
        (zpow_le_zpow_iff_right₀ one_lt_two).mpr (by omega)
      have h3 : (2:ℚ) ^ (54:ℤ) = (2:ℚ) ^ (53:ℤ) + (2:ℚ) ^ (53:ℤ) := by
        rw [show (54:ℤ) = 53 + 1 from rfl, zpow_add₀ (two_ne_zero)]
        ring
      linarith
    have h4 : (2:ℚ) ^ (L - 53) ≤ (2:ℚ) ^ (53:ℤ) :=
      (zpow_le_zpow_iff_right₀ one_lt_two).mpr (by omega)
    linarith
  have hfd : pyFloatDiv a b = some (roundToBinade q (L - 52)) := by
    simp only [pyFloatDiv, ← hLdef, he, ← hqdef]
    rw [if_pos hover]
  by_cases hdvd : b ∣ a
  · obtain ⟨k, hk⟩ := hdvd
    have hkpos : 0 < k := by
      rcases Nat.eq_zero_or_pos k with h0 | h0
      · rw [h0, Nat.mul_zero] at hk
        omega
      · exact h0
    have hqk : q = (k : ℚ) := by
      rw [hqdef, hk]
      push_cast
      rw [mul_comm, mul_div_assoc, div_self (ne_of_gt hbq), mul_one]
    have hnn : (0:ℤ) ≤ 52 - L := by omega
    have hzp : (2:ℚ) ^ (52 - L : ℤ) = (((2:ℤ) ^ (52 - L : ℤ).toNat : ℤ) : ℚ) := by
      push_cast
      rw [← zpow_natCast (2:ℚ) (52 - L : ℤ).toNat, Int.toNat_of_nonneg hnn]
    have hint : q * (2:ℚ) ^ (-(L - 52)) = (((k : ℤ) * (2:ℤ) ^ (52 - L : ℤ).toNat : ℤ) : ℚ) := by
      rw [hqk, show (-(L - 52) : ℤ) = 52 - L from by ring]
      push_cast [← hzp]
      ring
    have hr : roundToBinade q (L - 52) = q :=
      roundToBinade_eq_self q (L - 52) _ hint
    rw [hr] at hfd
    have hceil : Rat.ceil q = (k : ℤ) := by
      rw [ratCeil_eq_ceil, hqk]
      exact_mod_cast Int.ceil_intCast (k : ℤ)
    have hrhs : (a + b - 1) / b = k := by
      have hab : a + b - 1 = b * k + (b - 1) := by omega
      rw [hab, Nat.mul_add_div hb, Nat.div_eq_of_lt (by omega), Nat.add_zero]
    rw [pyCeilDiv, hfd, hrhs]
    simp [hceil]
  · have hs0 : 0 < a % b := by
      rcases Nat.eq_zero_or_pos (a % b) with h0 | h0
      · exact absurd (Nat.dvd_iff_mod_eq_zero.mpr h0) hdvd
      · exact h0
    obtain ⟨k, s, hks, hs1, hsb⟩ : ∃ k s, a = b * k + s ∧ 1 ≤ s ∧ s < b :=
      ⟨a / b, a % b, (Nat.div_add_mod a b).symm, hs0, Nat.mod_lt a hb⟩
    have hq_eq : q = (k : ℚ) + (s : ℚ) / b := by
      rw [hqdef]
      have hcast : (a : ℚ) = (b : ℚ) * k + s := by exact_mod_cast hks
      rw [hcast]
      field_simp
      ring
    have hqlow : (k:ℚ) + 1 / b ≤ q := by
      rw [hq_eq]
      have h1 : (1:ℚ) / b ≤ (s:ℚ) / b := by
        gcongr
        exact_mod_cast hs1
      linarith
    have hqhigh : q ≤ (k:ℚ) + 1 - 1 / b := by
      rw [hq_eq]
      have h1 : (s:ℚ) ≤ (b:ℚ) - 1 := by
        have : (s:ℚ) + 1 ≤ (b:ℚ) := by exact_mod_cast hsb
        linarith
      have h2 : (s:ℚ) / b ≤ ((b:ℚ) - 1) / b := by gcongr
      have h3 : ((b:ℚ) - 1) / b = 1 - 1 / b := by field_simp
      linarith
    have hklt : (k:ℚ) < roundToBinade q (L - 52) := by linarith
    have hkle : roundToBinade q (L - 52) < (k:ℚ) + 1 := by linarith
    have hceil : Rat.ceil (roundToBinade q (L - 52)) = (k : ℤ) + 1 := by
      rw [ratCeil_eq_ceil, Int.ceil_eq_iff]
      constructor
      · push_cast
        linarith
      · push_cast
        linarith
    have hrhs : (a + b - 1) / b = k + 1 := by
      have hx : b * (k + 1) = b * k + b := by ring
      have hab : a + b - 1 = b * (k + 1) + (s - 1) := by omega
      rw [hab, Nat.mul_add_div hb, Nat.div_eq_of_lt (by omega), Nat.add_zero]
    rw [pyCeilDiv, hfd, hrhs]
    simp [hceil]

theorem ratLog2Floor_ge (a b : Nat) (ha : 0 < a) (hb : 0 < b)
    (hbmax : b ≤ 100 * 1024 * 1024) : -27 ≤ ratLog2Floor a b := by
  have hbq : (0:ℚ) < (b : ℚ) := by exact_mod_cast hb
  obtain ⟨hq1, hq2⟩ := ratLog2Floor_spec a b ha hb
  by_contra hcon
  push_neg at hcon
  have h1 : (2:ℚ) ^ (ratLog2Floor a b + 1) ≤ (2:ℚ) ^ (-27 : ℤ) :=
    (zpow_le_zpow_iff_right₀ one_lt_two).mpr (by omega)
  have hql : (1:ℚ) / b ≤ (a:ℚ) / b := by
    gcongr
    exact_mod_cast ha
  have h227 : (2:ℚ) ^ (27:ℤ) = ((2 ^ 27 : ℕ) : ℚ) := by
    rw [show (27:ℤ) = ((27:ℕ):ℤ) from rfl, zpow_natCast]
    push_cast
    ring
  have hb27 : (b:ℚ) < (2:ℚ) ^ (27:ℤ) := by
    rw [h227]
    exact_mod_cast (by omega : b < 2 ^ 27)
  have h3 : (2:ℚ) ^ (-27:ℤ) < 1 / b := by
    rw [lt_div_iff₀ hbq]
    calc (2:ℚ) ^ (-27:ℤ) * b < (2:ℚ) ^ (-27:ℤ) * (2:ℚ) ^ (27:ℤ) :=
          mul_lt_mul_of_pos_left hb27 (zpow_pos two_pos _)
      _ = 1 := by
          rw [← zpow_add₀ (two_ne_zero)]
          norm_num
  have hfalse : (1:ℚ) / b < 1 / b :=
    calc (1:ℚ) / b ≤ (a:ℚ) / b := hql
      _ < (2:ℚ) ^ (ratLog2Floor a b + 1) := hq2
      _ ≤ (2:ℚ) ^ (-27:ℤ) := h1
      _ < 1 / b := h3
  exact lt_irrefl _ hfalse

theorem make_chunks_py_eq (size chunk : Nat) (hs : 0 < size)
    (hsmax : size ≤ 5 * 1024 * 1024 * 1024)
    (hcmin : 1024 * 1024 ≤ chunk) (hcmax : chunk ≤ 100 * 1024 * 1024) :
    make_chunks_py size chunk = some (make_chunks size chunk) := by
  have hc : 0 < chunk := by omega
  have h53 : size < 2 ^ 53 := by
    have : (5 * 1024 * 1024 * 1024 : Nat) < 2 ^ 53 := by decide
    omega
  have hL27 := ratLog2Floor_ge size chunk hs hc hcmax
  rw [make_chunks_py, pyCeilDiv_eq size chunk hs h53 hc (by omega), Option.map_some']
  rfl

/-! ## The claims -/

/-- C3: the claim says chunk numbers outside `[1, len(chunks)]` yield a typed
`InvalidChunk` error from both `presign` and `mark_complete`, with the upload
unchanged.  The code has no range check at all: this theorem evaluates both
operations on the failing inputs — on the reachable two-chunk store `exDB1`,
`chunk_number = 3` makes both `presign` and `mark_complete` raise an unhandled
`IndexError` (`none`, an HTTP 500, not a typed error), and `chunk_number = 0`
is accepted by `mark_complete`, which answers "Chunk 0 saved" and mutates the
last chunk instead of rejecting the request. -/
theorem C3_out_of_range_crashes :
    presign exDB1 "u1" 3 "alice" (some "url") = none ∧
    mark_complete exDB1 "u1" 3 "t" "alice" true = none ∧
    mark_complete exDB1 "u1" 0 "t" "alice" true ≠ none ∧
    (mcResp exDB1 "u1" 0 "t" "alice" true).map (fun r => r.message) =
      some "Chunk 0 saved" ∧
    (dbGet (mcStore exDB1 "u1" 0 "t" "alice" true) "u1").map
        (fun v => v.chunks.map (fun c => c.is_uploaded)) = some [false, true] :=
  ⟨by with_unfolding_all rfl, by with_unfolding_all rfl,
   by with_unfolding_all decide, by with_unfolding_all rfl,
   by with_unfolding_all rfl⟩

set_option maxRecDepth 100000 in
/-- C4 counterexample: the claim quantifies over ALL positive integers, but
`_make_chunks` computes `math.ceil(size / chunk)` through CPython float
division.  At `file_size = 2^53 + 1`, `chunk_size = 1` the quotient rounds to
`2^53` (ties to even), not the exact ceiling `2^53 + 1`: the code's plan has
`2^53` chunks and its last chunk ends at byte `2^53 - 1`, so the final byte
`file_size - 1 = 2^53` is not covered and the chunk count is not the exact
ceiling. -/
theorem C4_counterexample :
    pyCeilDiv (2 ^ 53 + 1) 1 = some (2 ^ 53) ∧
    (2 ^ 53 : Nat) ≠ (2 ^ 53 + 1 + 1 - 1) / 1 ∧
    (make_chunks_py (2 ^ 53 + 1) 1).map (fun l => l.length) = some (2 ^ 53) ∧
    (make_chunks_py (2 ^ 53 + 1) 1).map (fun l => l.getLast?.map (fun c => c.end_byte)) =
      some (some (2 ^ 53 - 1)) ∧
    (2 ^ 53 - 1 : Nat) ≠ 2 ^ 53 + 1 - 1 := by
  have hpc : pyCeilDiv (2 ^ 53 + 1) 1 = some (2 ^ 53) := by with_unfolding_all rfl
  refine ⟨hpc, by decide, ?_, ?_, by decide⟩
  · rw [make_chunks_py, hpc, Option.map_some', Option.map_some']
    simp
  · rw [make_chunks_py, hpc, Option.map_some', Option.map_some']
    rw [List.getLast?_eq_getElem?]
    simp only [List.length_map, List.length_range, List.getElem?_map,
      List.getElem?_range (show 2 ^ 53 - 1 < 2 ^ 53 by omega), Option.map_some']
    decide

/-- C4 (amended): on every input the service can pass to `_make_chunks` — the
request-DTO bounds `0 < file_size ≤ 5·2^30` and
`2^20 ≤ chunk_size ≤ 100·2^20`, enforced by pydantic before the service
runs — the float-faithful plan `make_chunks_py` coincides with the
exact-ceiling plan `make_chunks`, and that plan has exactly
`ceil(file_size / chunk_size)` chunks, 0-based chunk `i` spanning
`[i*chunk_size, min(file_size-1, (i+1)*chunk_size - 1)]`, contiguous,
non-overlapping, exactly covering `[0, file_size-1]`, with the last chunk
ending at `file_size - 1`.  For unrestricted positive integers the claim
fails (`C4_counterexample`). -/
theorem C4_chunk_plan (size chunk : Nat) (hs : 0 < size)
    (hsmax : size ≤ 5 * 1024 * 1024 * 1024)
    (hcmin : 1024 * 1024 ≤ chunk) (hcmax : chunk ≤ 100 * 1024 * 1024) :
    make_chunks_py size chunk = some (make_chunks size chunk) ∧
      ChunkPlanOK size chunk :=
  ⟨make_chunks_py_eq size chunk hs hsmax hcmin hcmax,
   chunkPlanOK_of_pos size chunk hs (by omega)⟩

theorem C4_witness :
    0 < 2 * 1024 * 1024 ∧ 2 * 1024 * 1024 ≤ 5 * 1024 * 1024 * 1024 ∧
      1024 * 1024 ≤ 1024 * 1024 ∧ 1024 * 1024 ≤ 100 * 1024 * 1024 ∧
      (make_chunks_py (2 * 1024 * 1024) (1024 * 1024) =
          some (make_chunks (2 * 1024 * 1024) (1024 * 1024)) ∧
        ChunkPlanOK (2 * 1024 * 1024) (1024 * 1024)) :=
  ⟨by decide, by decide, by decide, by decide,
   C4_chunk_plan (2 * 1024 * 1024) (1024 * 1024) (by decide) (by decide)
     (by decide) (by decide)⟩

/-- C8: a caller whose `owner_id` does not match gets exactly the same
response from `presign` (AuthorizeChunk) and `mark_complete` (CompleteChunk)
as a caller of a non-existent upload — the shared "Upload not found" failure
response — and in both cases the store is unchanged, so the two situations are
indistinguishable. -/
theorem C8_owner_indistinguishable (db1 db2 : Store) (i : String) (n : Int)
    (tag uid : String) (url : Option String) (f : Bool) (u : Upload)
    (h1 : dbGet db1 i = none) (h2 : dbGet db2 i = some u)
    (h3 : u.user_id ≠ uid) :
    presign db1 i n uid url = some (notFoundResp i) ∧
    presign db2 i n uid url = some (notFoundResp i) ∧
    mark_complete db1 i n tag uid f = some (db1, notFoundResp i) ∧
    mark_complete db2 i n tag uid f = some (db2, notFoundResp i) :=
  ⟨presign_not_found db1 i n uid url h1,
   presign_wrong_owner db2 i n uid url u h2 h3,
   mark_complete_not_found db1 i n tag uid f h1,
   mark_complete_wrong_owner db2 i n tag uid f u h2 h3⟩

theorem C8_witness :
    dbGet [] "u1" = none ∧ dbGet exDB1 "u1" = some exU1 ∧
      exU1.user_id ≠ "mallory" ∧
      (presign [] "u1" 1 "mallory" (some "url") = some (notFoundResp "u1") ∧
       presign exDB1 "u1" 1 "mallory" (some "url") = some (notFoundResp "u1") ∧
       mark_complete [] "u1" 1 "t" "mallory" true = some ([], notFoundResp "u1") ∧
       mark_complete exDB1 "u1" 1 "t" "mallory" true =
         some (exDB1, notFoundResp "u1")) :=
  ⟨rfl, exDB1_get, by decide,
   C8_owner_indistinguishable [] exDB1 "u1" 1 "t" "mallory" (some "url") true exU1
     rfl exDB1_get (by decide)⟩

/-- C10: with `chunk_number = 0` (which the route's bare `int` path parameter
admits), `mark_complete` does not return an error: Python's negative indexing
resolves `chunks[-1]` to the LAST chunk, which gets marked uploaded and has
its part tag overwritten with the supplied value. -/
theorem C10_chunk_zero_marks_last (db : Store) (i : String) (tag uid : String)
    (f : Bool) (u : Upload) (c : UploadChunk)
    (hdb : dbGet db i = some u) (ho : u.user_id = uid)
    (hne : u.chunks ≠ []) (hc : u.chunks[u.chunks.length - 1]? = some c) :
    mark_complete db i 0 tag uid f ≠ none ∧
    (dbGet (mcStore db i 0 tag uid f) i).map
        (fun v => v.chunks[v.chunks.length - 1]?) =
      some (some { c with is_uploaded := true, etag := some tag }) := by
  have hlen : 0 < u.chunks.length := List.length_pos.mpr hne
  have hidx : pyIndex u.chunks.length ((0 : Int) - 1) = some (u.chunks.length - 1) :=
    pyIndex_zero_sub_one _ hlen
  refine ⟨mark_complete_isSome db i 0 tag uid f u _ hdb ho hidx, ?_⟩
  rw [mcStore_get_self db i 0 tag uid f u _ hdb ho hidx]
  simp only [Option.map_some', finalRecord_chunks, markChunk_length]
  rw [markChunk_getElem_self, hc]
  rfl

theorem C10_witness :
    dbGet exDB1 "u1" = some exU1 ∧ exU1.user_id = "alice" ∧
      exU1.chunks ≠ [] ∧ exU1.chunks[exU1.chunks.length - 1]? = some exChunk2 ∧
      (mark_complete exDB1 "u1" 0 "t9" "alice" true ≠ none ∧
       (dbGet (mcStore exDB1 "u1" 0 "t9" "alice" true) "u1").map
           (fun v => v.chunks[v.chunks.length - 1]?) =
         some (some { exChunk2 with is_uploaded := true, etag := some "t9" })) :=
  ⟨exDB1_get, rfl, by decide, by decide,
   C10_chunk_zero_marks_last exDB1 "u1" "t9" "alice" true exU1 exChunk2
     exDB1_get rfl (by decide) (by decide)⟩

/-- C9 counterexample: on the reachable two-chunk store `exDB1`, two
overlapped `CompleteChunk` executions for the distinct chunks 1 and 2 — both
reading the same snapshot before either unconditional `put_item` write — leave
chunk 1 NOT uploaded and progress at 50: chunk 1's completion is lost to the
lost update, refuting the claim that both concurrent completions always take
effect. -/
theorem C9_counterexample :
    (dbGet (interleaved exDB1 "u1" exU1 0 1 "t1" "t2") "u1").map
        (fun v => v.chunks.map (fun c => c.is_uploaded)) = some [false, true] ∧
    (dbGet (interleaved exDB1 "u1" exU1 0 1 "t1" "t2") "u1").map
        (fun v => v.upload_progress) = some 50 ∧
    Reach exDB1 :=
  ⟨by with_unfolding_all rfl, by with_unfolding_all rfl, exReach1⟩

/-- C9 (amended): `DynamoDBAdapter.update_upload` is an unconditional
read-modify-write full-record `put_item` — there is no conditional/versioned
write and no per-upload serialization — so when two `CompleteChunk` calls for
distinct chunks `idxA ≠ idxB` both read the record before either writes, the
later write overwrites the earlier one and chunk `idxA`'s completion is lost:
after both operations the persisted record still shows `idxA` not uploaded. -/
theorem C9_lost_update (db : Store) (i : String) (u : Upload)
    (idxA idxB : Nat) (tagA tagB : String) (cA : UploadChunk)
    (hdb : dbGet db i = some u) (hA : u.chunks[idxA]? = some cA)
    (hAfalse : cA.is_uploaded = false) (hne : idxA ≠ idxB) :
    (dbGet (interleaved db i u idxA idxB tagA tagB) i).map
        (fun v => v.chunks[idxA]?.map (fun c => c.is_uploaded)) =
      some (some false) := by
  unfold interleaved
  rw [update_upload_of_get db i u _ hdb,
    update_upload_of_get _ i (mcLocal u idxA tagA) _ (dbGet_dbPut_self db i _),
    dbGet_dbPut_self]
  simp only [Option.map_some', mcLocal_chunks]
  rw [markChunk_getElem_ne _ _ _ _ hne, hA]
  simp [hAfalse]

theorem C9_witness :
    dbGet exDB1 "u1" = some exU1 ∧ exU1.chunks[0]? = some exChunk1 ∧
      exChunk1.is_uploaded = false ∧ (0 : Nat) ≠ 1 ∧
      (dbGet (interleaved exDB1 "u1" exU1 0 1 "t1" "t2") "u1").map
          (fun v => v.chunks[0]?.map (fun c => c.is_uploaded)) =
        some (some false) :=
  ⟨exDB1_get, by decide, rfl, by decide,
   C9_lost_update exDB1 "u1" exU1 0 1 "t1" "t2" exChunk1 exDB1_get
     (by decide) rfl (by decide)⟩

/-- C1 counterexample: the biconditional `progress = 100.0 ⇔ status =
completed` fails on a reachable state.  On the reachable store `exDB3` —
obtained by completing the last chunk of a two-chunk upload with a failing
finalize — the persisted record has `progress = 100` while `status = failed`. -/
theorem C1_counterexample :
    Reach exDB3 ∧
    (dbGet exDB3 "u1").map (fun v => v.upload_progress) = some 100 ∧
    (dbGet exDB3 "u1").map (fun v => v.status) = some UploadStatus.failed ∧
    UploadStatus.failed ≠ UploadStatus.completed :=
  ⟨exReach3, by with_unfolding_all rfl, by with_unfolding_all rfl, by decide⟩

/-- C1 (amended): over reachable stores only the forward direction of the
claimed invariant holds: a persisted record with `status = completed` has
`progress = 100.0`.  The reverse implication is refuted by
`C1_counterexample`: after `CompleteChunk` on the last incomplete chunk with a
failing finalize, the persisted and returned record has `progress = 100` with
`status = failed`. -/
theorem C1_completed_implies_progress (db : Store) (i : String) (u : Upload)
    (hr : Reach db) (hget : dbGet db i = some u)
    (hcomp : u.status = UploadStatus.completed) :
    u.upload_progress = 100 :=
  ((reach_goodDB db hr i u hget).2 hcomp).1

theorem C1_witness :
    Reach exDB4 ∧ dbGet exDB4 "u1" = some exU4 ∧
      exU4.status = UploadStatus.completed ∧ exU4.upload_progress = 100 :=
  ⟨exReach4, exDB4_get, rfl,
   C1_completed_implies_progress exDB4 "u1" exU4 exReach4 exDB4_get rfl⟩

/-- C2 counterexample: the biconditional `status = completed ⇔ all chunks
uploaded` fails on the reachable store `exDB3`: after the last chunk completes
and the finalize call fails, every chunk has `is_uploaded = true` but the
persisted status is `failed`, not `completed`. -/
theorem C2_counterexample :
    Reach exDB3 ∧
    (dbGet exDB3 "u1").map (fun v => v.chunks.map (fun c => c.is_uploaded)) =
      some [true, true] ∧
    (dbGet exDB3 "u1").map (fun v => v.status) = some UploadStatus.failed ∧
    UploadStatus.failed ≠ UploadStatus.completed :=
  ⟨exReach3, by with_unfolding_all rfl, by with_unfolding_all rfl, by decide⟩

/-- C2 (amended): over reachable stores only the forward direction holds: a
persisted record with `status = completed` has every chunk uploaded.  The
reverse implication is refuted by `C2_counterexample` (all chunks uploaded
with `status = failed` after a failing finalize; the pre-finalize write of
line 115 likewise persists all-uploaded with `status = uploading`). -/
theorem C2_completed_implies_all_uploaded (db : Store) (i : String) (u : Upload)
    (hr : Reach db) (hget : dbGet db i = some u)
    (hcomp : u.status = UploadStatus.completed) :
    ∀ c ∈ u.chunks, c.is_uploaded = true :=
  ((reach_goodDB db hr i u hget).2 hcomp).2

theorem C2_witness :
    Reach exDB4 ∧ dbGet exDB4 "u1" = some exU4 ∧
      exU4.status = UploadStatus.completed ∧
      ∀ c ∈ exU4.chunks, c.is_uploaded = true :=
  ⟨exReach4, exDB4_get, rfl,
   C2_completed_implies_all_uploaded exDB4 "u1" exU4 exReach4 exDB4_get rfl⟩

/-- C5 counterexample: when the last chunk completes and finalize fails, the
returned response and the persisted record carry `progress = 100`, not a
pre-completion value below 100 — refuting the claim's "not silently set to
100": the progress recomputed on line 113 (before the finalize call) is
already 100, and that is exactly what the failure path returns and persists. -/
theorem C5_counterexample :
    Reach exDB2 ∧
    (mcResp exDB2 "u1" 2 "t2" "alice" false).map (fun r => (r.status, r.progress)) =
      some (UploadStatus.failed, 100) ∧
    (dbGet exDB3 "u1").map (fun v => (v.status, v.upload_progress)) =
      some (UploadStatus.failed, 100) :=
  ⟨exReach2, by with_unfolding_all rfl, by with_unfolding_all rfl⟩

/-- C5 (amended): when `mark_complete` marks the last remaining chunk and the
finalize call fails, it persists and returns `status = failed` with the
progress value recomputed before the finalize call — which, all chunks being
uploaded at that point, IS `100` (`round(n/n*100, 2)`), not a value kept below
100. -/
theorem C5_finalize_failure (db : Store) (i : String) (n : Int) (tag uid : String)
    (u : Upload) (idx : Nat)
    (hdb : dbGet db i = some u) (ho : u.user_id = uid)
    (hidx : pyIndex u.chunks.length (n - 1) = some idx)
    (hne : u.chunks ≠ [])
    (hall : (mcLocal u idx tag).chunks.countP (fun c => c.is_uploaded) =
        (mcLocal u idx tag).chunks.length) :
    mcResp db i n tag uid false =
      some { upload_id := i, status := UploadStatus.failed, progress := 100
             message := "S3 finalize failed" } ∧
    (dbGet (mcStore db i n tag uid false) i).map
        (fun v => (v.status, v.upload_progress)) =
      some (UploadStatus.failed, 100) := by
  have hprog : (mcLocal u idx tag).upload_progress = 100 := by
    rw [mcLocal_progress]
    apply progressOf_full
    · simpa [mcLocal_chunks] using hall
    · exact markChunk_ne_nil _ _ _ hne
  constructor
  · unfold mcResp
    rw [mark_complete_finalize_failed db i n tag uid u idx hdb ho hidx hall]
    simp [hprog]
  · rw [mcStore_get_self db i n tag uid false u idx hdb ho hidx]
    simp only [Option.map_some', finalRecord, if_pos hall]
    simp only [Bool.false_eq_true, if_false, Option.some.injEq, Prod.mk.injEq]
    exact ⟨trivial, hprog⟩

theorem C5_witness :
    dbGet exDB2 "u1" = some exU2 ∧ exU2.user_id = "alice" ∧
      pyIndex exU2.chunks.length ((2 : Int) - 1) = some 1 ∧ exU2.chunks ≠ [] ∧
      (mcLocal exU2 1 "t2").chunks.countP (fun c => c.is_uploaded) =
        (mcLocal exU2 1 "t2").chunks.length ∧
      (mcResp exDB2 "u1" 2 "t2" "alice" false =
        some { upload_id := "u1", status := UploadStatus.failed, progress := 100
               message := "S3 finalize failed" } ∧
       (dbGet (mcStore exDB2 "u1" 2 "t2" "alice" false) "u1").map
           (fun v => (v.status, v.upload_progress)) =
         some (UploadStatus.failed, 100)) :=
  ⟨exDB2_get, rfl, by decide, by decide, by decide,
   C5_finalize_failure exDB2 "u1" 2 "t2" "alice" exU2 1 exDB2_get rfl
     (by decide) (by decide) (by decide)⟩

/-- Store after re-completing the already-uploaded chunk 1 of the example run
with a DIFFERENT part tag "t9". -/
def exDB2b : Store := mcStore exDB2 "u1" 1 "t9" "alice" true

/-- C6 counterexample: re-completing an already-uploaded chunk with a
different part tag does NOT leave `part_tag` unchanged: line 111 of
`mark_complete` overwrites `etag` unconditionally.  On the reachable store
`exDB2` (chunk 1 uploaded with tag "t1"), re-completing chunk 1 with tag "t9"
persists `etag = "t9"`. -/
theorem C6_counterexample :
    Reach exDB2b ∧
    (dbGet exDB2 "u1").map (fun v => v.chunks.map (fun c => c.etag)) =
      some [some "t1", none] ∧
    (dbGet exDB2b "u1").map (fun v => v.chunks.map (fun c => c.etag)) =
      some [some "t9", none] :=
  ⟨Reach.step_complete exDB2 "u1" 1 "t9" "alice" true exReach2,
   by with_unfolding_all rfl, by with_unfolding_all rfl⟩

/-- C6 (amended): re-completing an already-uploaded chunk keeps
`is_uploaded = true`, but OVERWRITES `part_tag` with the newly supplied value
(a no-op only when the same tag is re-sent); every other chunk is untouched,
the uploaded count is unchanged (no double-counting), and progress is
recomputed from that unchanged count and re-persisted. -/
theorem C6_recomplete_overwrites_tag (db : Store) (i : String) (n : Int)
    (tag uid : String) (f : Bool) (u : Upload) (idx : Nat) (c0 : UploadChunk)
    (hdb : dbGet db i = some u) (ho : u.user_id = uid)
    (hidx : pyIndex u.chunks.length (n - 1) = some idx)
    (hc0 : u.chunks[idx]? = some c0) (hup : c0.is_uploaded = true) :
    ∃ r, dbGet (mcStore db i n tag uid f) i = some r ∧
      r.chunks.length = u.chunks.length ∧
      r.chunks[idx]? = some { c0 with is_uploaded := true, etag := some tag } ∧
      (∀ j, j ≠ idx → r.chunks[j]? = u.chunks[j]?) ∧
      r.chunks.countP (fun c => c.is_uploaded) =
        u.chunks.countP (fun c => c.is_uploaded) ∧
      r.upload_progress =
        round2 ((u.chunks.countP (fun c => c.is_uploaded) : ℚ) /
          (u.chunks.length : ℚ) * 100) := by
  refine ⟨finalRecord u idx tag f,
    mcStore_get_self db i n tag uid f u idx hdb ho hidx, ?_, ?_, ?_, ?_, ?_⟩
  · rw [finalRecord_chunks, markChunk_length]
  · rw [finalRecord_chunks, markChunk_getElem_self, hc0]
    rfl
  · intro j hj
    rw [finalRecord_chunks, markChunk_getElem_ne _ _ _ _ hj]
  · rw [finalRecord_chunks, markChunk_countP_of_uploaded _ _ _ c0 hc0 hup]
  · rw [finalRecord_progress]
    unfold progressOf
    rw [markChunk_countP_of_uploaded _ _ _ c0 hc0 hup, markChunk_length]

theorem C6_witness :
    dbGet exDB2 "u1" = some exU2 ∧ exU2.user_id = "alice" ∧
      pyIndex exU2.chunks.length ((1 : Int) - 1) = some 0 ∧
      exU2.chunks[0]? = some { exChunk1 with is_uploaded := true, etag := some "t1" } ∧
      (∃ r, dbGet (mcStore exDB2 "u1" 1 "t9" "alice" true) "u1" = some r ∧
        r.chunks.length = exU2.chunks.length ∧
        r.chunks[0]? = some { exChunk1 with is_uploaded := true, etag := some "t9" } ∧
        (∀ j, j ≠ 0 → r.chunks[j]? = exU2.chunks[j]?) ∧
        r.chunks.countP (fun c => c.is_uploaded) =
          exU2.chunks.countP (fun c => c.is_uploaded) ∧
        r.upload_progress =
          round2 ((exU2.chunks.countP (fun c => c.is_uploaded) : ℚ) /
            (exU2.chunks.length : ℚ) * 100)) :=
  ⟨exDB2_get, rfl, by decide, by decide,
   C6_recomplete_overwrites_tag exDB2 "u1" 1 "t9" "alice" true exU2 0
     { exChunk1 with is_uploaded := true, etag := some "t1" }
     exDB2_get rfl (by decide) (by decide) rfl⟩

/-- C7: calling `mark_complete` twice with the same upload id, chunk number
and part tag leaves exactly the same persisted `is_uploaded` flags and the
same persisted `progress` as calling it once — whatever the outcomes of the
finalize calls are (in particular for the last chunk, whose completion
triggers finalize on both calls). -/
theorem C7_idempotent (db : Store) (i : String) (n : Int) (tag uid : String)
    (f1 f2 : Bool) (u : Upload) (idx : Nat)
    (hdb : dbGet db i = some u) (ho : u.user_id = uid)
    (hidx : pyIndex u.chunks.length (n - 1) = some idx) :
    (dbGet (mcStore (mcStore db i n tag uid f1) i n tag uid f2) i).map
        (fun v => (v.chunks.map (fun c => c.is_uploaded), v.upload_progress)) =
      (dbGet (mcStore db i n tag uid f1) i).map
        (fun v => (v.chunks.map (fun c => c.is_uploaded), v.upload_progress)) := by
  have hget1 := mcStore_get_self db i n tag uid f1 u idx hdb ho hidx
  have ho2 : (finalRecord u idx tag f1).user_id = uid := by
    rw [finalRecord_user_id]
    exact ho
  have hidx2 : pyIndex (finalRecord u idx tag f1).chunks.length (n - 1) = some idx := by
    rw [finalRecord_chunks, markChunk_length]
    exact hidx
  have hget2 := mcStore_get_self (mcStore db i n tag uid f1) i n tag uid f2
    (finalRecord u idx tag f1) idx hget1 ho2 hidx2
  rw [hget1, hget2]
  have hch : (finalRecord (finalRecord u idx tag f1) idx tag f2).chunks =
      (finalRecord u idx tag f1).chunks := by
    calc (finalRecord (finalRecord u idx tag f1) idx tag f2).chunks
        = markChunk (finalRecord u idx tag f1).chunks idx tag :=
          finalRecord_chunks _ _ _ _
      _ = markChunk (markChunk u.chunks idx tag) idx tag := by
          rw [finalRecord_chunks]
      _ = markChunk u.chunks idx tag := markChunk_idem _ _ _
      _ = (finalRecord u idx tag f1).chunks := (finalRecord_chunks _ _ _ _).symm
  have hpr : (finalRecord (finalRecord u idx tag f1) idx tag f2).upload_progress =
      (finalRecord u idx tag f1).upload_progress := by
    rw [finalRecord_progress, finalRecord_progress, finalRecord_chunks, markChunk_idem]
  simp only [Option.map_some', Option.some.injEq, Prod.mk.injEq]
  exact ⟨by rw [hch], hpr⟩

theorem C7_witness :
    dbGet exDB1 "u1" = some exU1 ∧ exU1.user_id = "alice" ∧
      pyIndex exU1.chunks.length ((1 : Int) - 1) = some 0 ∧
      (dbGet (mcStore (mcStore exDB1 "u1" 1 "t1" "alice" true) "u1" 1 "t1" "alice" true) "u1").map
          (fun v => (v.chunks.map (fun c => c.is_uploaded), v.upload_progress)) =
        (dbGet (mcStore exDB1 "u1" 1 "t1" "alice" true) "u1").map
          (fun v => (v.chunks.map (fun c => c.is_uploaded), v.upload_progress)) :=
  ⟨exDB1_get, rfl, by decide,
   C7_idempotent exDB1 "u1" 1 "t1" "alice" true true exU1 0 exDB1_get rfl (by decide)⟩
